import Mathlib

/-!
Verification of the windowed data engine in
`src/Virtualized-Table-With-Skeletons/src/App.jsx`.

The component state (sparse row store, loading flag, `hasMore`, scroll offset,
filter text, sort configuration) is embedded as a record; the event handlers
(`fetchBatch`, `handleScroll`, `toggleSort`, the filter input's `onChange`,
and the completion of a pending fetch) become state-transition functions.
JavaScript machine numbers only ever hold small non-negative integers here, so
they are modelled as `Nat` (with `Int` where the source subtracts);
`Array.prototype.sort` with a consistent comparator is modelled as a stable
insertion sort; `localeCompare` is modelled as code-point lexicographic
collation; strings are ASCII so `toLowerCase`/`trim` act per `Char`.
-/

/-! ### Configuration constants (App.jsx lines 3–7) -/

def TOTAL_ROWS : Nat := 10000

def ROW_HEIGHT : Nat := 40

def VIEWPORT_HEIGHT : Nat := 600

def BATCH_SIZE : Nat := 200

def PREFETCH_THRESHOLD : Nat := 20

/-! ### Data model -/

/-- A data row `{ id, name, email }` as produced by the simulated batch source. -/
structure Row where
  id : Nat
  name : String
  email : String
deriving DecidableEq

/-- The sortable columns. -/
inductive SortKey
  | id
  | name
  | email
deriving DecidableEq

/-- Sort direction. -/
inductive SortDir
  | asc
  | desc
deriving DecidableEq

/-- `sortConfig` state: `{ key, direction }`. -/
structure SortConfig where
  key : SortKey
  dir : SortDir
deriving DecidableEq

/-- The component state.  `data` is the sparse row store (holes are `none`);
`pending` holds the issued-but-not-completed fetches (the `setTimeout`
callbacks that have not fired); `fetchCount` counts how many fetches were
actually started (instrumentation of `fetchBatch` passing its guard). -/
structure AppState where
  data : List (Option Row)
  loading : Bool
  hasMore : Bool
  scrollTop : Nat
  filter : String
  sortConfig : SortConfig
  pending : List (Nat × Nat)
  fetchCount : Nat
deriving DecidableEq

/-! ### Character/string helpers (JS `toLowerCase`, `trim`, `includes`, `<`) -/

/-- Lowered character list of a string (JS `s.toLowerCase()`, ASCII data). -/
def charsLower (s : String) : List Char := s.data.map Char.toLower

/-- JS whitespace test for the characters `trim` removes (ASCII subset). -/
def isWs (c : Char) : Bool := c = ' ' || c = '\t' || c = '\n' || c = '\r'

/-- JS `String.prototype.trim` on a character list. -/
def trimChars (l : List Char) : List Char :=
  ((l.dropWhile isWs).reverse.dropWhile isWs).reverse

/-- `leadMatch needle hay` is true when `needle` occurs at the head of `hay`. -/
def leadMatch : List Char → List Char → Bool
  | [], _ => true
  | _ :: _, [] => false
  | c :: cs, d :: ds => c = d && leadMatch cs ds

/-- JS `hay.includes(needle)`: `needle` occurs contiguously in `hay`. -/
def hasSub (hay needle : List Char) : Bool :=
  leadMatch needle hay ||
    match hay with
    | [] => false
    | _ :: t => hasSub t needle

/-- The filter predicate of `processedData` (App.jsx lines 60–62):
`r.name.toLowerCase().includes(q) || r.email.toLowerCase().includes(q)`. -/
def rowMatches (q : List Char) (r : Row) : Bool :=
  hasSub (charsLower r.name) q || hasSub (charsLower r.email) q

/-- JS `<` on strings: lexicographic comparison by code point. -/
def lexLt : List Char → List Char → Bool
  | [], [] => false
  | [], _ :: _ => true
  | _ :: _, [] => false
  | a :: as, b :: bs => if a = b then lexLt as bs else decide (a < b)

/-! ### Comparators -/

/-- Result of the three-way branch `aVal < bVal / aVal > bVal / equal` used by
the `processedData` comparator (App.jsx lines 66–72), given the two strict
comparisons as booleans. -/
def cmpOf (dir : SortDir) (lt gt : Bool) : Int :=
  if lt then (match dir with | .asc => -1 | .desc => 1)
  else if gt then (match dir with | .asc => 1 | .desc => -1)
  else 0

/-- JS `aVal < bVal` for the value at sort key `k`: numeric comparison for
`id`, code-point lexicographic comparison for the two string columns. -/
def keyLtB (k : SortKey) (a b : Row) : Bool :=
  match k with
  | .id => decide (a.id < b.id)
  | .name => lexLt a.name.data b.name.data
  | .email => lexLt a.email.data b.email.data

/-- The comparator of `processedData`: compares the values at the active sort
key with JS `<`/`>`. -/
def cmpRow (cfg : SortConfig) (a b : Row) : Int :=
  cmpOf cfg.dir (keyLtB cfg.key a b) (keyLtB cfg.key b a)

/-- `x.localeCompare(y)` modelled as code-point lexicographic collation. -/
def localeCmp (x y : List Char) : Int :=
  if lexLt x y then -1 else if lexLt y x then 1 else 0

/-- The comparator used by `toggleSort`'s store re-sort (App.jsx lines
170–185): numeric subtraction when both values are numbers (`id`), otherwise
`localeCompare`; `dir` is the direction the comparator reads. -/
def tsCmp (k : SortKey) (dir : SortDir) (a b : Row) : Int :=
  match k with
  | .id =>
    match dir with
    | .asc => (a.id : Int) - (b.id : Int)
    | .desc => (b.id : Int) - (a.id : Int)
  | .name =>
    match dir with
    | .asc => localeCmp a.name.data b.name.data
    | .desc => localeCmp b.name.data a.name.data
  | .email =>
    match dir with
    | .asc => localeCmp a.email.data b.email.data
    | .desc => localeCmp b.email.data a.email.data

/-- JS `Array.prototype.sort` (stable, comparator consistent) with the
`processedData` comparator: kept iff comparator non-positive. -/
def sortRows (cfg : SortConfig) (l : List Row) : List Row :=
  List.insertionSort (fun a b => cmpRow cfg a b ≤ 0) l

/-! ### Derived views (App.jsx lines 52–90) -/

/-- `loadedRows = data.filter(Boolean)`: the loaded rows, holes dropped. -/
def loadedRows (s : AppState) : List Row := s.data.filterMap id

/-- `isFiltering = filter.trim().length > 0`. -/
def isFiltering (s : AppState) : Bool := !(trimChars s.filter.data).isEmpty

/-- `processedData`: copy `loadedRows`; if `filter.trim()` is truthy keep rows
matching `q = filter.toLowerCase()` (note: the UNTRIMMED text is lowered);
then sort with the active sort config. -/
def processedData (s : AppState) : List Row :=
  let arr := loadedRows s
  let arr :=
    if (trimChars s.filter.data).isEmpty then arr
    else arr.filter (rowMatches (charsLower s.filter))
  sortRows s.sortConfig arr

/-- `totalRows = isFiltering ? processedData.length : TOTAL_ROWS`. -/
def totalRows (s : AppState) : Nat :=
  if isFiltering s then (processedData s).length else TOTAL_ROWS

/-- `visibleCount = Math.ceil(VIEWPORT_HEIGHT / ROW_HEIGHT) + 5`. -/
def visibleCount : Nat := (VIEWPORT_HEIGHT + ROW_HEIGHT - 1) / ROW_HEIGHT + 5

/-- `startIndex = Math.min(Math.floor(scrollTop / ROW_HEIGHT),
Math.max(0, totalRows - visibleCount))` (subtraction clamped at 0 as in JS). -/
def calcStartIndex (scrollTop tot : Nat) : Nat :=
  min (scrollTop / ROW_HEIGHT) (max 0 (tot - visibleCount))

/-- `endIndex = Math.min(totalRows, startIndex + visibleCount)`. -/
def calcEndIndex (scrollTop tot : Nat) : Nat :=
  min tot (calcStartIndex scrollTop tot + visibleCount)

def startIndex (s : AppState) : Nat := calcStartIndex s.scrollTop (totalRows s)

def endIndex (s : AppState) : Nat := calcEndIndex s.scrollTop (totalRows s)

/-- `spacerTop = startIndex * ROW_HEIGHT`. -/
def spacerTop (s : AppState) : Nat := startIndex s * ROW_HEIGHT

/-- `spacerBottom = (totalRows - endIndex) * ROW_HEIGHT`. -/
def spacerBottom (s : AppState) : Nat := (totalRows s - endIndex s) * ROW_HEIGHT

/-! ### The batch source and the sparse store write -/

/-- The row the simulated batch source returns for absolute index `absIdx`:
`id = startIndex + i + 1`, `name = "User " + id`, `email = "user" + id + "@example.com"`. -/
def mkRow (absIdx : Nat) : Row :=
  { id := absIdx + 1
    name := "User " ++ toString (absIdx + 1)
    email := "user" ++ toString (absIdx + 1) ++ "@example.com" }

/-- The `count` rows the batch source returns for a request at `start`. -/
def genRows (start count : Nat) : List Row :=
  (List.range count).map (fun i => mkRow (start + i))

/-- Overwrite the head of `data` with `rows` (extending with the assignments
past the end, as JS index assignment does). -/
def writeRows : List (Option Row) → List Row → List (Option Row)
  | data, [] => data
  | [], r :: rs => some r :: writeRows [] rs
  | _ :: ds, r :: rs => some r :: writeRows ds rs

/-- Skip `start` slots (creating holes past the end) and write `rows`. -/
def putRangeGo : List (Option Row) → Nat → List Row → List (Option Row)
  | data, 0, rows => writeRows data rows
  | [], n + 1, rows => none :: putRangeGo [] n rows
  | d :: ds, n + 1, rows => d :: putRangeGo ds n rows

/-- `newRows.forEach((row, i) => copy[startIndex + i] = row)`: write `rows`
at absolute indices `start, start+1, …`; no assignment happens when `rows`
is empty. -/
def putRange (data : List (Option Row)) (start : Nat) (rows : List Row) :
    List (Option Row) :=
  if rows.isEmpty then data else putRangeGo data start rows

/-! ### Event handlers -/

/-- `fetchBatch(startIndex, count)`, issue phase (App.jsx lines 27–30): no-op
if a fetch is in flight, otherwise set `loading` and schedule the timeout
(recorded in `pending`; `fetchCount` counts the issue). -/
def fetchBatch (s : AppState) (startIdx count : Nat) : AppState :=
  if s.loading then s
  else
    { s with
      loading := true
      pending := s.pending ++ [(startIdx, count)]
      fetchCount := s.fetchCount + 1 }

/-- Completion of the oldest pending fetch (the `setTimeout` body, App.jsx
lines 31–48): write the generated rows at their absolute indices, clear
`loading`, and set `hasMore := false` when `startIndex + count >= TOTAL_ROWS`. -/
def completeFetch (s : AppState) : AppState :=
  match s.pending with
  | [] => s
  | (startIdx, count) :: rest =>
    { s with
      data := putRange s.data startIdx (genRows startIdx count)
      loading := false
      pending := rest
      hasMore := if TOTAL_ROWS ≤ startIdx + count then false else s.hasMore }

/-- `handleScroll` (App.jsx lines 93–111): record the scroll offset; in
filtered mode do nothing else; otherwise prefetch the next batch when within
the threshold of the next batch boundary, the slot there is a hole, `hasMore`
holds and no fetch is loaded. -/
def handleScroll (s : AppState) (st : Nat) : AppState :=
  let s1 := { s with scrollTop := st }
  if isFiltering s1 then s1
  else
    let currentRow := st / ROW_HEIGHT
    if s1.hasMore = true ∧ s1.loading = false then
      let nextBatchStart := currentRow / BATCH_SIZE * BATCH_SIZE + BATCH_SIZE
      if nextBatchStart < TOTAL_ROWS ∧
          nextBatchStart - currentRow ≤ PREFETCH_THRESHOLD ∧
          s1.data.getD nextBatchStart none = none then
        fetchBatch s1 nextBatchStart BATCH_SIZE
      else s1
    else s1

/-- The new sort direction on a header click (App.jsx line 164). -/
def toggleDir (cfg : SortConfig) (k : SortKey) : SortDir :=
  if cfg.key = k ∧ cfg.dir = SortDir.asc then SortDir.desc else SortDir.asc

/-- `toggleSort(key)` (App.jsx lines 162–188): update the sort config, and
re-sort the sparse store in place.  The store comparator reads the NEW key
(the argument) but the direction from the closed-over `sortConfig`, i.e. the
direction from BEFORE the toggle.  JS `sort` compacts the defined elements to
the front (holes to the tail). -/
def toggleSort (s : AppState) (k : SortKey) : AppState :=
  let sorted :=
    List.insertionSort (fun a b => tsCmp k s.sortConfig.dir a b ≤ 0)
      (s.data.filterMap id)
  { s with
    sortConfig := ⟨k, toggleDir s.sortConfig k⟩
    data := sorted.map some ++ List.replicate (s.data.length - sorted.length) none }

/-- The filter input's `onChange` (App.jsx lines 212–217): set the filter text
and reset the scroll offset to 0. -/
def setFilterEvent (s : AppState) (v : String) : AppState :=
  { s with filter := v, scrollTop := 0 }

/-! ### Rendering of the window -/

/-- A renderable entry: a data row, a skeleton placeholder for a hole at an
absolute index, or the "No results" placeholder. -/
inductive Entry
  | row (r : Row)
  | skeleton (i : Nat)
  | noResults
deriving DecidableEq

/-- `visibleRows` (App.jsx lines 114–159): in filtered mode the window slices
`processedData` (one "No results" entry when the slice is empty); in normal
mode absolute indices `startIndex ≤ i < endIndex` index the sparse store,
holes rendered as skeletons. -/
def visibleRows (s : AppState) : List Entry :=
  if isFiltering s then
    let slice := ((processedData s).drop (startIndex s)).take (endIndex s - startIndex s)
    if slice.isEmpty then [Entry.noResults]
    else slice.map Entry.row
  else
    (List.range' (startIndex s) (endIndex s - startIndex s)).map (fun i =>
      match s.data.getD i none with
      | some r => Entry.row r
      | none => Entry.skeleton i)

/-! ### The event loop -/

/-- The externally triggered events: scroll, filter input, header click, and
the firing of a pending fetch's timeout. -/
inductive Event
  | scroll (st : Nat)
  | input (v : String)
  | toggle (k : SortKey)
  | complete

def step (s : AppState) : Event → AppState
  | .scroll st => handleScroll s st
  | .input v => setFilterEvent s v
  | .toggle k => toggleSort s k
  | .complete => completeFetch s

/-- The state right after `useState` initialisation. -/
def initState : AppState :=
  { data := []
    loading := false
    hasMore := true
    scrollTop := 0
    filter := ""
    sortConfig := ⟨SortKey.id, SortDir.asc⟩
    pending := []
    fetchCount := 0 }

/-- The state after the mount effect `fetchBatch(0, TOTAL_ROWS)` (App.jsx
lines 21–24). -/
def initApp : AppState := fetchBatch initState 0 TOTAL_ROWS

def run (s : AppState) (evs : List Event) : AppState := evs.foldl step s

/-! ### Spec-side definition for claim C2 -/

/-- Definition following the spec's words for the Filtering-mode compact
sequence: loaded rows, kept when name or email case-insensitively contains
the TRIMMED filter text, then sorted by the active sort config.  (The source
`processedData` differs: it matches against the untrimmed text.) -/
def specFilteredSeq (s : AppState) : List Row :=
  sortRows s.sortConfig
    ((loadedRows s).filter (rowMatches ((trimChars s.filter.data).map Char.toLower)))

/-! ### Concrete fixture states for witnesses and counterexamples -/

/-- Fixture: Normal-mode state holding exactly the first batch `[0, 200)`. -/
def exPrefetchState : AppState :=
  { initState with
    data := (List.range 200).map (fun i => some (mkRow i))
    fetchCount := 1 }

/-- Fixture: a state with a fetch in flight. -/
def exLoadingState : AppState :=
  { initState with loading := true, pending := [(0, 5)], fetchCount := 1 }

def rowA : Row := { id := 1, name := "Alice", email := "alice@example.com" }

def rowB : Row := { id := 2, name := "Bob", email := "bob@example.com" }

/-- Fixture: two loaded rows out of id order, id-ascending sort config. -/
def exSortState : AppState := { initState with data := [some rowB, some rowA] }

/-- Fixture: one loaded row, filter text with a leading space. -/
def exTrimState : AppState :=
  { initState with data := [some (mkRow 0)], filter := " user1" }

/-! ### Trace invariants -/

/-- Single-flight invariant: at most one pending fetch, and `loading` holds
exactly while one is pending. -/
def C5Inv (s : AppState) : Prop :=
  s.pending.length ≤ 1 ∧ (s.loading = true ↔ s.pending ≠ [])

/-- The store covers all of `[0, TOTAL_ROWS)` with loaded rows. -/
def storeFull (s : AppState) : Prop :=
  s.data.length = TOTAL_ROWS ∧ ∀ x ∈ s.data, x.isSome = true

/-- Invariant of every reachable state: exactly one fetch was ever issued,
and the system is either still waiting on the initial whole-dataset fetch or
fully loaded with `hasMore` cleared. -/
def C10Inv (s : AppState) : Prop :=
  s.fetchCount = 1 ∧
    ((s.pending = [(0, TOTAL_ROWS)] ∧ s.loading = true ∧ s.data = []) ∨
      (s.pending = [] ∧ s.loading = false ∧ s.hasMore = false ∧ storeFull s))

/-! ### Order facts about the comparators -/

theorem lexLt_asymm : ∀ {a b : List Char}, lexLt a b = true → lexLt b a = false
  | [], [], h => by simp [lexLt] at h
  | [], _ :: _, _ => by simp [lexLt]
  | _ :: _, [], h => by simp [lexLt] at h
  | x :: xs, y :: ys, h => by
    simp only [lexLt] at h ⊢
    by_cases hxy : x = y
    · subst hxy
      rw [if_pos rfl] at h ⊢
      exact lexLt_asymm h
    · rw [if_neg hxy] at h
      rw [if_neg (fun hyx => hxy hyx.symm)]
      exact decide_eq_false (not_lt_of_lt (of_decide_eq_true h))

theorem lexLt_trans : ∀ {a b c : List Char},
    lexLt a b = true → lexLt b c = true → lexLt a c = true
  | [], [], _, h1, _ => by simp [lexLt] at h1
  | [], _ :: _, [], _, h2 => by simp [lexLt] at h2
  | [], _ :: _, _ :: _, _, _ => by simp [lexLt]
  | _ :: _, [], _, h1, _ => by simp [lexLt] at h1
  | _ :: _, _ :: _, [], _, h2 => by simp [lexLt] at h2
  | x :: xs, y :: ys, z :: zs, h1, h2 => by
    simp only [lexLt] at h1 h2 ⊢
    by_cases hxy : x = y
    · subst hxy
      rw [if_pos rfl] at h1
      by_cases hxz : x = z
      · subst hxz
        rw [if_pos rfl] at h2 ⊢
        exact lexLt_trans h1 h2
      · rw [if_neg hxz] at h2 ⊢
        exact h2
    · rw [if_neg hxy] at h1
      by_cases hyz : y = z
      · subst hyz
        rw [if_neg hxy]
        exact h1
      · rw [if_neg hyz] at h2
        have hxz : x < z := lt_trans (of_decide_eq_true h1) (of_decide_eq_true h2)
        rw [if_neg (ne_of_lt hxz)]
        exact decide_eq_true hxz

theorem lexLt_conn : ∀ {a b : List Char},
    lexLt a b = false → lexLt b a = false → a = b
  | [], [], _, _ => rfl
  | [], _ :: _, h1, _ => by simp [lexLt] at h1
  | _ :: _, [], _, h2 => by simp [lexLt] at h2
  | x :: xs, y :: ys, h1, h2 => by
    simp only [lexLt] at h1 h2
    by_cases hxy : x = y
    · subst hxy
      rw [if_pos rfl] at h1 h2
      rw [lexLt_conn h1 h2]
    · rw [if_neg hxy] at h1
      rw [if_neg (fun hyx => hxy hyx.symm)] at h2
      exact absurd (le_antisymm (le_of_not_lt (of_decide_eq_false h2))
        (le_of_not_lt (of_decide_eq_false h1))) hxy

/-- Co-transitivity of the negation of `lexLt`. -/
theorem lexLt_nlt_trans {a b c : List Char}
    (h1 : lexLt b a = false) (h2 : lexLt c b = false) : lexLt c a = false := by
  cases hca : lexLt c a with
  | false => rfl
  | true =>
    cases hba : lexLt a b with
    | false =>
      rw [lexLt_conn hba h1] at hca
      rw [hca] at h2
      exact h2
    | true =>
      have h3 := lexLt_trans hca hba
      rw [h3] at h2
      exact h2

theorem keyLtB_asymm (k : SortKey) (a b : Row)
    (h : keyLtB k a b = true) : keyLtB k b a = false := by
  cases k <;> simp only [keyLtB] at h ⊢
  · exact decide_eq_false (not_lt_of_lt (of_decide_eq_true h))
  · exact lexLt_asymm h
  · exact lexLt_asymm h

theorem keyLtB_nlt_trans (k : SortKey) (a b c : Row)
    (h1 : keyLtB k b a = false) (h2 : keyLtB k c b = false) :
    keyLtB k c a = false := by
  cases k <;> simp only [keyLtB] at h1 h2 ⊢
  · have g1 := of_decide_eq_false h1
    have g2 := of_decide_eq_false h2
    exact decide_eq_false (by omega)
  · exact lexLt_nlt_trans h1 h2
  · exact lexLt_nlt_trans h1 h2

theorem localeCmp_le_iff (x y : List Char) :
    (localeCmp x y ≤ 0) ↔ lexLt y x = false := by
  rw [localeCmp]
  cases h1 : lexLt x y with
  | true => simp [lexLt_asymm h1]
  | false =>
    cases h2 : lexLt y x with
    | true => simp [h2]
    | false => simp [h2]

/-- The `processedData` comparator's "comes before" relation in ascending
direction is exactly "not strictly greater at the key". -/
theorem cmpRow_le_asc (k : SortKey) (a b : Row) :
    (cmpRow ⟨k, SortDir.asc⟩ a b ≤ 0) ↔ keyLtB k b a = false := by
  cases hab : keyLtB k a b with
  | true => simp [cmpRow, cmpOf, hab, keyLtB_asymm _ _ _ hab]
  | false =>
    cases hba : keyLtB k b a with
    | true => simp [cmpRow, cmpOf, hab, hba]
    | false => simp [cmpRow, cmpOf, hab, hba]

/-- Descending direction: "not strictly smaller at the key". -/
theorem cmpRow_le_desc (k : SortKey) (a b : Row) :
    (cmpRow ⟨k, SortDir.desc⟩ a b ≤ 0) ↔ keyLtB k a b = false := by
  cases hab : keyLtB k a b with
  | true => simp [cmpRow, cmpOf, hab]
  | false =>
    cases hba : keyLtB k b a with
    | true => simp [cmpRow, cmpOf, hab, hba]
    | false => simp [cmpRow, cmpOf, hab, hba]

instance cmpRowTotal (cfg : SortConfig) :
    IsTotal Row (fun a b => cmpRow cfg a b ≤ 0) := by
  obtain ⟨k, d⟩ := cfg
  constructor
  intro a b
  cases d with
  | asc =>
    rw [cmpRow_le_asc, cmpRow_le_asc]
    cases h : keyLtB k b a with
    | false => exact Or.inl rfl
    | true => exact Or.inr (keyLtB_asymm _ _ _ h)
  | desc =>
    rw [cmpRow_le_desc, cmpRow_le_desc]
    cases h : keyLtB k a b with
    | false => exact Or.inl rfl
    | true => exact Or.inr (keyLtB_asymm _ _ _ h)

instance cmpRowTrans (cfg : SortConfig) :
    IsTrans Row (fun a b => cmpRow cfg a b ≤ 0) := by
  obtain ⟨k, d⟩ := cfg
  constructor
  intro a b c hab hbc
  cases d with
  | asc =>
    rw [cmpRow_le_asc] at hab hbc ⊢
    exact keyLtB_nlt_trans _ _ _ _ hab hbc
  | desc =>
    rw [cmpRow_le_desc] at hab hbc ⊢
    exact keyLtB_nlt_trans _ _ _ _ hbc hab

/-- Same characterisation for the `toggleSort` store comparator, ascending. -/
theorem tsCmp_le_asc (k : SortKey) (a b : Row) :
    (tsCmp k SortDir.asc a b ≤ 0) ↔ keyLtB k b a = false := by
  cases k with
  | id =>
    simp only [tsCmp, keyLtB, decide_eq_false_iff_not, not_lt]
    omega
  | name => exact localeCmp_le_iff _ _
  | email => exact localeCmp_le_iff _ _

/-- Same characterisation for the `toggleSort` store comparator, descending. -/
theorem tsCmp_le_desc (k : SortKey) (a b : Row) :
    (tsCmp k SortDir.desc a b ≤ 0) ↔ keyLtB k a b = false := by
  cases k with
  | id =>
    simp only [tsCmp, keyLtB, decide_eq_false_iff_not, not_lt]
    omega
  | name => exact localeCmp_le_iff _ _
  | email => exact localeCmp_le_iff _ _

instance tsCmpTotal (k : SortKey) (d : SortDir) :
    IsTotal Row (fun a b => tsCmp k d a b ≤ 0) := by
  constructor
  intro a b
  cases d with
  | asc =>
    rw [tsCmp_le_asc, tsCmp_le_asc]
    cases h : keyLtB k b a with
    | false => exact Or.inl rfl
    | true => exact Or.inr (keyLtB_asymm _ _ _ h)
  | desc =>
    rw [tsCmp_le_desc, tsCmp_le_desc]
    cases h : keyLtB k a b with
    | false => exact Or.inl rfl
    | true => exact Or.inr (keyLtB_asymm _ _ _ h)

instance tsCmpTrans (k : SortKey) (d : SortDir) :
    IsTrans Row (fun a b => tsCmp k d a b ≤ 0) := by
  constructor
  intro a b c hab hbc
  cases d with
  | asc =>
    rw [tsCmp_le_asc] at hab hbc ⊢
    exact keyLtB_nlt_trans _ _ _ _ hab hbc
  | desc =>
    rw [tsCmp_le_desc] at hab hbc ⊢
    exact keyLtB_nlt_trans _ _ _ _ hbc hab

/-! ### Store and list helper lemmas -/

theorem writeRows_nil_eq (rows : List Row) : writeRows [] rows = rows.map some := by
  induction rows with
  | nil => rfl
  | cons r rs ih => simp [writeRows, ih]

theorem writeRows_get (data : List (Option Row)) (rows : List Row) (i : Nat) (r : Row)
    (h : rows.get? i = some r) : (writeRows data rows).getD i none = some r := by
  induction rows generalizing data i with
  | nil => simp at h
  | cons r0 rs ih =>
    cases i with
    | zero =>
      simp only [List.get?] at h
      cases data <;> simpa [writeRows] using h
    | succ n =>
      simp only [List.get?] at h
      cases data with
      | nil => simpa [writeRows] using ih [] n h
      | cons d ds => simpa [writeRows] using ih ds n h

theorem putRangeGo_getD (data : List (Option Row)) (start : Nat) (rows : List Row)
    (i : Nat) (r : Row) (h : rows.get? i = some r) :
    (putRangeGo data start rows).getD (start + i) none = some r := by
  induction start generalizing data with
  | zero => simpa [putRangeGo] using writeRows_get data rows i r h
  | succ n ih =>
    have harr : n + 1 + i = (n + i) + 1 := by omega
    cases data with
    | nil =>
      show (none :: putRangeGo [] n rows).getD (n + 1 + i) none = some r
      rw [harr]
      simpa using ih []
    | cons d ds =>
      show (d :: putRangeGo ds n rows).getD (n + 1 + i) none = some r
      rw [harr]
      simpa using ih ds

theorem putRange_getD (data : List (Option Row)) (start : Nat) (rows : List Row)
    (i : Nat) (r : Row) (h : rows.get? i = some r) :
    (putRange data start rows).getD (start + i) none = some r := by
  rw [putRange, if_neg]
  · exact putRangeGo_getD data start rows i r h
  · intro he
    rw [List.isEmpty_iff] at he
    subst he
    simp at h

theorem genRows_length (start count : Nat) : (genRows start count).length = count := by
  simp [genRows]

theorem genRows_get (start count i : Nat) (h : i < count) :
    (genRows start count).get? i = some (mkRow (start + i)) := by
  simp [genRows, List.getElem?_map, List.getElem?_range h]

theorem filterMap_id_map_some (l : List Row) : (l.map some).filterMap id = l := by
  induction l with
  | nil => rfl
  | cons r rs ih => simp [List.filterMap_cons, ih]

theorem filterMap_id_replicate_none (n : Nat) :
    (List.replicate n (none : Option Row)).filterMap id = [] := by
  induction n with
  | zero => rfl
  | succ n ih => simp [List.replicate_succ, List.filterMap_cons, ih]

theorem filterMap_id_length_of_all_some (l : List (Option Row))
    (h : ∀ x ∈ l, x.isSome = true) : (l.filterMap id).length = l.length := by
  induction l with
  | nil => rfl
  | cons x xs ih =>
    cases x with
    | none => simpa using h none (List.mem_cons_self _ _)
    | some r =>
      have ih2 := ih fun y hy => h y (List.mem_cons_of_mem _ hy)
      show (r :: xs.filterMap id).length = xs.length + 1
      simp [ih2]

theorem sortRows_perm (cfg : SortConfig) (l : List Row) : List.Perm (sortRows cfg l) l :=
  List.perm_insertionSort _ _

theorem sortRows_sorted (cfg : SortConfig) (l : List Row) :
    List.Sorted (fun a b => cmpRow cfg a b ≤ 0) (sortRows cfg l) :=
  List.sorted_insertionSort _ _

/-! ### Unfolding lemmas for the derived views and handlers -/

theorem isFiltering_iff (s : AppState) :
    isFiltering s = true ↔ (trimChars s.filter.data).isEmpty = false := by
  rw [isFiltering, Bool.not_eq_true']

theorem processedData_filtering (s : AppState) (h : isFiltering s = true) :
    processedData s =
      sortRows s.sortConfig ((loadedRows s).filter (rowMatches (charsLower s.filter))) := by
  rw [processedData]
  rw [if_neg]
  rw [(isFiltering_iff s).mp h]
  simp

theorem processedData_normal (s : AppState) (h : isFiltering s = false) :
    processedData s = sortRows s.sortConfig (loadedRows s) := by
  rw [processedData]
  rw [if_pos]
  rw [isFiltering, Bool.not_eq_false'] at h
  exact h

theorem loadedRows_toggleSort (s : AppState) (k : SortKey) :
    loadedRows (toggleSort s k) =
      List.insertionSort (fun a b => tsCmp k s.sortConfig.dir a b ≤ 0) (loadedRows s) := by
  simp [loadedRows, toggleSort, List.filterMap_append, filterMap_id_map_some,
    filterMap_id_replicate_none]

/-! ### Claim theorems -/

/-- Claim C6: for every non-negative scroll offset and every totalRows value
(including 0), the window calculator satisfies
`0 ≤ startIndex ≤ endIndex ≤ totalRows`, with
`startIndex = min(floor(scrollOffset / rowHeight), max(0, totalRows - visibleCount))`
and `endIndex = min(totalRows, startIndex + visibleCount)`. -/
theorem C6_window_bounds (st tot : Nat) :
    0 ≤ calcStartIndex st tot ∧
      calcStartIndex st tot ≤ calcEndIndex st tot ∧
      calcEndIndex st tot ≤ tot := by
  refine ⟨Nat.zero_le _, ?_, Nat.min_le_left _ _⟩
  rw [calcEndIndex]
  refine Nat.le_min.mpr ⟨?_, Nat.le_add_right _ _⟩
  rw [calcStartIndex]
  refine le_trans (Nat.min_le_right _ _) ?_
  rw [Nat.zero_max]
  exact Nat.sub_le _ _

/-- Claim C8: every filter-text mutation that switches the view mode resets
the scroll offset to 0 (the handler resets it unconditionally), so after
clearing a previously non-empty filter the window is computed from offset 0. -/
theorem C8_filter_reset (s : AppState) (v : String)
    (_h : isFiltering (setFilterEvent s v) ≠ isFiltering s) :
    (setFilterEvent s v).scrollTop = 0 ∧
      startIndex (setFilterEvent s v) =
        calcStartIndex 0 (totalRows (setFilterEvent s v)) := ⟨rfl, rfl⟩

/-- Witness for C8: clearing the non-empty filter "a" switches the mode and
the offset is reset. -/
theorem C8_witness :
    (isFiltering (setFilterEvent { initState with filter := "a" } "") ≠
        isFiltering { initState with filter := "a" }) ∧
      ((setFilterEvent { initState with filter := "a" } "").scrollTop = 0 ∧
        startIndex (setFilterEvent { initState with filter := "a" } "") =
          calcStartIndex 0 (totalRows (setFilterEvent { initState with filter := "a" } ""))) :=
  ⟨by decide, C8_filter_reset { initState with filter := "a" } "" (by decide)⟩

/-- Claim C9: in Filtering mode with an empty compact sequence the window is
exactly one "no results" placeholder, and both spacers are 0. -/
theorem C9_no_results (s : AppState) (hf : isFiltering s = true)
    (he : processedData s = []) :
    visibleRows s = [Entry.noResults] ∧ spacerTop s = 0 ∧ spacerBottom s = 0 := by
  have htot : totalRows s = 0 := by
    rw [totalRows, if_pos hf, he]
    rfl
  have hsi : startIndex s = 0 := by
    rw [startIndex, htot, calcStartIndex]
    simp
  have hei : endIndex s = 0 := by
    rw [endIndex, htot, calcEndIndex]
    simp
  refine ⟨?_, ?_, ?_⟩
  · rw [visibleRows, if_pos hf]
    simp [he]
  · rw [spacerTop, hsi]
    simp
  · rw [spacerBottom, htot, hei]
    simp

/-- Witness for C9: filter "z" over the empty store matches nothing. -/
theorem C9_witness :
    isFiltering { initState with filter := "z" } = true ∧
      processedData { initState with filter := "z" } = [] ∧
      (visibleRows { initState with filter := "z" } = [Entry.noResults] ∧
        spacerTop { initState with filter := "z" } = 0 ∧
        spacerBottom { initState with filter := "z" } = 0) :=
  ⟨by decide, by decide, C9_no_results _ (by decide) (by decide)⟩

/-- Claim C4: a `requestBatch(s, c)` issued while no fetch is in flight marks
the fetch in flight; its completion writes the `c` returned rows at absolute
indices `s..s+c-1` (so `get(s+i)` is the `i`-th returned row, with id
`s+i+1`), clears the in-flight flag, and sets `hasMore` to false exactly when
`s + c ≥ N`; a call while a fetch is in flight is a silent no-op. -/
theorem C4_fetch_lifecycle :
    (∀ (s : AppState) (a c : Nat), s.loading = true → fetchBatch s a c = s) ∧
    (∀ (s : AppState) (a c : Nat), s.loading = false → s.pending = [] →
      (fetchBatch s a c).loading = true ∧
      (completeFetch (fetchBatch s a c)).loading = false ∧
      (∀ i, i < c →
        (completeFetch (fetchBatch s a c)).data.getD (a + i) none = some (mkRow (a + i)) ∧
        (mkRow (a + i)).id = a + i + 1) ∧
      (completeFetch (fetchBatch s a c)).hasMore =
        (if TOTAL_ROWS ≤ a + c then false else s.hasMore)) := by
  constructor
  · intro s a c h
    rw [fetchBatch, if_pos h]
  · intro s a c hl hp
    have hfb : fetchBatch s a c =
        { s with
          loading := true
          pending := s.pending ++ [(a, c)]
          fetchCount := s.fetchCount + 1 } := by
      rw [fetchBatch, if_neg]
      simp [hl]
    rw [hfb, hp]
    refine ⟨rfl, rfl, ?_, rfl⟩
    intro i hi
    exact ⟨putRange_getD _ _ _ _ _ (genRows_get a c i hi), rfl⟩

/-- Witness for C4: the no-op branch on a loading state, and a fetch of 2 rows
at start 3 from the initial state. -/
theorem C4_witness :
    (exLoadingState.loading = true ∧ fetchBatch exLoadingState 0 5 = exLoadingState) ∧
    (initState.loading = false ∧ initState.pending = [] ∧
      ((fetchBatch initState 3 2).loading = true ∧
        (completeFetch (fetchBatch initState 3 2)).loading = false ∧
        (∀ i, i < 2 →
          (completeFetch (fetchBatch initState 3 2)).data.getD (3 + i) none =
            some (mkRow (3 + i)) ∧
          (mkRow (3 + i)).id = 3 + i + 1) ∧
        (completeFetch (fetchBatch initState 3 2)).hasMore =
          (if TOTAL_ROWS ≤ 3 + 2 then false else initState.hasMore))) :=
  ⟨⟨rfl, C4_fetch_lifecycle.1 exLoadingState 0 5 rfl⟩,
   ⟨rfl, rfl, C4_fetch_lifecycle.2 initState 3 2 rfl rfl⟩⟩

/-- Claim C1: on a scroll event in Normal mode with current row
`r = floor(scrollTop / rowHeight)`, a prefetch `requestBatch(nextBatchStart,
batchSize)` with `nextBatchStart = floor(r / batchSize) * batchSize +
batchSize` is issued if and only if `nextBatchStart < N`,
`nextBatchStart - r ≤ prefetchThreshold`, the slot at `nextBatchStart` is a
hole, `hasMore` is true, and no fetch is in flight. -/
theorem C1_prefetch_iff (s : AppState) (st : Nat) (hn : isFiltering s = false) :
    ((handleScroll s st).fetchCount = s.fetchCount + 1 ∧
      (handleScroll s st).pending =
        s.pending ++ [(st / ROW_HEIGHT / BATCH_SIZE * BATCH_SIZE + BATCH_SIZE, BATCH_SIZE)]) ↔
      (st / ROW_HEIGHT / BATCH_SIZE * BATCH_SIZE + BATCH_SIZE < TOTAL_ROWS ∧
        st / ROW_HEIGHT / BATCH_SIZE * BATCH_SIZE + BATCH_SIZE - st / ROW_HEIGHT ≤
          PREFETCH_THRESHOLD ∧
        s.data.getD (st / ROW_HEIGHT / BATCH_SIZE * BATCH_SIZE + BATCH_SIZE) none = none ∧
        s.hasMore = true ∧ s.loading = false) := by
  have hn1 : isFiltering { s with scrollTop := st } = false := hn
  simp only [handleScroll]
  rw [if_neg (by simp [hn1])]
  split_ifs with hg hc
  · have hfb : fetchBatch { s with scrollTop := st }
        (st / ROW_HEIGHT / BATCH_SIZE * BATCH_SIZE + BATCH_SIZE) BATCH_SIZE =
        { s with
          scrollTop := st
          loading := true
          pending := s.pending ++
            [(st / ROW_HEIGHT / BATCH_SIZE * BATCH_SIZE + BATCH_SIZE, BATCH_SIZE)]
          fetchCount := s.fetchCount + 1 } := by
      rw [fetchBatch, if_neg]
      simp
      exact hg.2
    refine iff_of_true ⟨?_, ?_⟩ ⟨hc.1, hc.2.1, hc.2.2, hg.1, hg.2⟩
    · rw [hfb]
    · rw [hfb]
  · refine iff_of_false ?_ ?_
    · rintro ⟨h1, -⟩
      exact absurd h1 (Nat.ne_of_lt (Nat.lt_succ_self _))
    · rintro ⟨c1, c2, c3, -, -⟩
      exact hc ⟨c1, c2, c3⟩
  · refine iff_of_false ?_ ?_
    · rintro ⟨h1, -⟩
      exact absurd h1 (Nat.ne_of_lt (Nat.lt_succ_self _))
    · rintro ⟨-, -, -, h4, h5⟩
      exact hg ⟨h4, h5⟩

/-- Witness for C1: with N=10000, batchSize=200, threshold=20, only `[0,200)`
loaded and `hasMore`, scrolling to row 185 (offset 7400) issues
`requestBatch(200, 200)`, while scrolling to row 170 (offset 6800) issues
nothing. -/
theorem C1_witness :
    isFiltering exPrefetchState = false ∧
      (((handleScroll exPrefetchState 7400).fetchCount = exPrefetchState.fetchCount + 1 ∧
        (handleScroll exPrefetchState 7400).pending =
          exPrefetchState.pending ++
            [(7400 / ROW_HEIGHT / BATCH_SIZE * BATCH_SIZE + BATCH_SIZE, BATCH_SIZE)]) ↔
        (7400 / ROW_HEIGHT / BATCH_SIZE * BATCH_SIZE + BATCH_SIZE < TOTAL_ROWS ∧
          7400 / ROW_HEIGHT / BATCH_SIZE * BATCH_SIZE + BATCH_SIZE - 7400 / ROW_HEIGHT ≤
            PREFETCH_THRESHOLD ∧
          exPrefetchState.data.getD
            (7400 / ROW_HEIGHT / BATCH_SIZE * BATCH_SIZE + BATCH_SIZE) none = none ∧
          exPrefetchState.hasMore = true ∧ exPrefetchState.loading = false)) ∧
      (handleScroll exPrefetchState 6800).fetchCount = 1 :=
  ⟨by decide, C1_prefetch_iff exPrefetchState 7400 (by decide), by decide⟩

theorem loadedRows_toggleSort_perm (s : AppState) (k : SortKey) :
    List.Perm (loadedRows (toggleSort s k)) (loadedRows s) := by
  rw [loadedRows_toggleSort]
  exact List.perm_insertionSort _ _

theorem processedData_sorted (s : AppState) :
    List.Sorted (fun a b => cmpRow s.sortConfig a b ≤ 0) (processedData s) := by
  simp only [processedData]
  exact sortRows_sorted _ _

theorem processedData_perm_of (s t : AppState) (hf : t.filter = s.filter)
    (hl : List.Perm (loadedRows t) (loadedRows s)) :
    List.Perm (processedData t) (processedData s) := by
  simp only [processedData]
  rw [hf]
  refine (sortRows_perm _ _).trans (List.Perm.trans ?_ (sortRows_perm _ _).symm)
  by_cases hc : (trimChars s.filter.data).isEmpty = true
  · rw [if_pos hc, if_pos hc]
    exact hl
  · rw [if_neg hc, if_neg hc]
    exact hl.filter _

/-- Counterexample to claim C2 as stated: with the filter text " user1"
(leading space) over the single loaded row `{id 1, name "User 1",
email "user1@example.com"}`, the mode is Filtering and the spec's sequence
(matching against the TRIMMED text "user1") keeps the row, but the code's
`processedData` (matching against the untrimmed lowercased text " user1")
is empty. -/
theorem C2_counterexample :
    isFiltering exTrimState = true ∧
      specFilteredSeq exTrimState = [mkRow 0] ∧
      processedData exTrimState = [] :=
  ⟨by decide, by decide, by decide⟩

/-- Claim C2 (amended): in Filtering mode the compact sequence consists of
exactly the loaded rows whose name or email case-insensitively contains the
filter text AS TYPED (lowercased but not trimmed; trimming only decides the
mode), sorted by the active sort key and direction, and the `totalRows` used
for windowing is the length of this sequence, not N. -/
theorem C2_filtered_sequence (s : AppState) (h : isFiltering s = true) :
    List.Perm (processedData s)
        ((loadedRows s).filter (rowMatches (charsLower s.filter))) ∧
      List.Sorted (fun a b => cmpRow s.sortConfig a b ≤ 0) (processedData s) ∧
      totalRows s = (processedData s).length := by
  refine ⟨?_, processedData_sorted s, ?_⟩
  · rw [processedData_filtering s h]
    exact sortRows_perm _ _
  · rw [totalRows, if_pos h]

/-- Witness for C2 (amended) at the filtering fixture state. -/
theorem C2_witness :
    isFiltering exTrimState = true ∧
      (List.Perm (processedData exTrimState)
          ((loadedRows exTrimState).filter (rowMatches (charsLower exTrimState.filter))) ∧
        List.Sorted (fun a b => cmpRow exTrimState.sortConfig a b ≤ 0)
          (processedData exTrimState) ∧
        totalRows exTrimState = (processedData exTrimState).length) :=
  ⟨by decide, C2_filtered_sequence exTrimState (by decide)⟩

/-- Counterexample to claim C3 as stated: from config `{id, asc}` and store
`[row id 2, row id 1]`, toggling sort on `id` yields the NEW direction `desc`,
but the store is re-sorted ascending (`[row 1, row 2]`) because the comparator
reads the pre-toggle direction; the adjacent pair violates the descending
order the claim demands. -/
theorem C3_counterexample :
    (toggleSort exSortState SortKey.id).sortConfig = ⟨SortKey.id, SortDir.desc⟩ ∧
      loadedRows (toggleSort exSortState SortKey.id) = [rowA, rowB] ∧
      ¬ (tsCmp SortKey.id SortDir.desc rowA rowB ≤ 0) :=
  ⟨by decide, by decide, by decide⟩

/-- Claim C3 (amended): a sort toggle on key K re-sorts the entire sparse
store: afterwards all loaded rows sit compacted at the front, sorted by K
under the direction that was active BEFORE the toggle (numeric comparison for
the numeric column, string comparison otherwise; desc reverses asc), holes
sit at the tail, and no loaded row is dropped; the new config is K with the
toggled direction. -/
theorem C3_store_resort (s : AppState) (k : SortKey) :
    (toggleSort s k).sortConfig = ⟨k, toggleDir s.sortConfig k⟩ ∧
      List.Perm (loadedRows (toggleSort s k)) (loadedRows s) ∧
      (toggleSort s k).data =
        (loadedRows (toggleSort s k)).map some ++
          List.replicate (s.data.length - (loadedRows s).length) none ∧
      List.Sorted (fun a b => tsCmp k s.sortConfig.dir a b ≤ 0)
        (loadedRows (toggleSort s k)) := by
  refine ⟨rfl, loadedRows_toggleSort_perm s k, ?_, ?_⟩
  · rw [loadedRows_toggleSort]
    simp only [toggleSort, loadedRows]
    rw [List.length_insertionSort]
  · rw [loadedRows_toggleSort]
    exact List.sorted_insertionSort _ _

/-- Counterexample to claim C7 as stated: from the initial sort state
`{id, asc}`, toggling twice on `name` leaves the config at `{name, desc}` and
the processed sequence `[Bob, Alice]`, which is not the ascending-by-name
sort `[Alice, Bob]` of the same data set. -/
theorem C7_counterexample :
    (toggleSort (toggleSort exSortState SortKey.name) SortKey.name).sortConfig =
        ⟨SortKey.name, SortDir.desc⟩ ∧
      processedData (toggleSort (toggleSort exSortState SortKey.name) SortKey.name) =
        [rowB, rowA] ∧
      sortRows ⟨SortKey.name, SortDir.asc⟩ (loadedRows exSortState) = [rowA, rowB] ∧
      ([rowB, rowA] : List Row) ≠ [rowA, rowB] :=
  ⟨by decide, by decide, by decide, by decide⟩

/-- Claim C7 (amended): a click on a column whose key is already active with
ascending direction flips to descending, and any other click sets that
column's key ascending; consequently toggling twice on K starting from a
state where K is ALREADY active-ascending returns the config to `{K, asc}`,
and the processed sequence is again ascending by K — a permutation of
(i.e. equal up to ties with) the initial ascending sort of the same data. -/
theorem C7_double_toggle (s : AppState) (k : SortKey)
    (h : s.sortConfig = ⟨k, SortDir.asc⟩) :
    (toggleSort (toggleSort s k) k).sortConfig = ⟨k, SortDir.asc⟩ ∧
      List.Sorted (fun a b => cmpRow ⟨k, SortDir.asc⟩ a b ≤ 0)
        (processedData (toggleSort (toggleSort s k) k)) ∧
      List.Perm (processedData (toggleSort (toggleSort s k) k)) (processedData s) ∧
      (∀ (t : AppState) (k2 : SortKey),
        (t.sortConfig.key = k2 ∧ t.sortConfig.dir = SortDir.asc →
          (toggleSort t k2).sortConfig = ⟨k2, SortDir.desc⟩) ∧
        (¬ (t.sortConfig.key = k2 ∧ t.sortConfig.dir = SortDir.asc) →
          (toggleSort t k2).sortConfig = ⟨k2, SortDir.asc⟩)) := by
  have h1 : (toggleSort s k).sortConfig = ⟨k, SortDir.desc⟩ := by
    show (⟨k, toggleDir s.sortConfig k⟩ : SortConfig) = _
    rw [toggleDir, if_pos]
    rw [h]
    exact ⟨rfl, rfl⟩
  have h2 : (toggleSort (toggleSort s k) k).sortConfig = ⟨k, SortDir.asc⟩ := by
    show (⟨k, toggleDir (toggleSort s k).sortConfig k⟩ : SortConfig) = _
    rw [toggleDir, if_neg]
    rw [h1]
    rintro ⟨-, hd⟩
    exact SortDir.noConfusion hd
  refine ⟨h2, ?_, ?_, ?_⟩
  · have hs := processedData_sorted (toggleSort (toggleSort s k) k)
    rw [h2] at hs
    exact hs
  · exact processedData_perm_of s _ rfl
      ((loadedRows_toggleSort_perm _ k).trans (loadedRows_toggleSort_perm s k))
  · intro t k2
    constructor
    · rintro ⟨hk, hd⟩
      show (⟨k2, toggleDir t.sortConfig k2⟩ : SortConfig) = _
      rw [toggleDir, if_pos ⟨hk, hd⟩]
    · intro hn
      show (⟨k2, toggleDir t.sortConfig k2⟩ : SortConfig) = _
      rw [toggleDir, if_neg hn]

/-- Witness for C7 (amended): double-toggling `id` from the fixture state
(whose config is `{id, asc}`). -/
theorem C7_witness :
    exSortState.sortConfig = ⟨SortKey.id, SortDir.asc⟩ ∧
      ((toggleSort (toggleSort exSortState SortKey.id) SortKey.id).sortConfig =
          ⟨SortKey.id, SortDir.asc⟩ ∧
        List.Sorted (fun a b => cmpRow ⟨SortKey.id, SortDir.asc⟩ a b ≤ 0)
          (processedData (toggleSort (toggleSort exSortState SortKey.id) SortKey.id)) ∧
        List.Perm (processedData (toggleSort (toggleSort exSortState SortKey.id) SortKey.id))
          (processedData exSortState) ∧
        (∀ (t : AppState) (k2 : SortKey),
          (t.sortConfig.key = k2 ∧ t.sortConfig.dir = SortDir.asc →
            (toggleSort t k2).sortConfig = ⟨k2, SortDir.desc⟩) ∧
          (¬ (t.sortConfig.key = k2 ∧ t.sortConfig.dir = SortDir.asc) →
            (toggleSort t k2).sortConfig = ⟨k2, SortDir.asc⟩))) :=
  ⟨rfl, C7_double_toggle exSortState SortKey.id rfl⟩

/-! ### Step lemmas for the trace invariants -/

theorem handleScroll_cases (s : AppState) (st : Nat) :
    handleScroll s st = { s with scrollTop := st } ∨
      (s.loading = false ∧ s.hasMore = true ∧
        ∃ nbs, handleScroll s st =
          { s with
            scrollTop := st
            loading := true
            pending := s.pending ++ [(nbs, BATCH_SIZE)]
            fetchCount := s.fetchCount + 1 }) := by
  simp only [handleScroll]
  split_ifs with h1 h2 h3
  · exact Or.inl rfl
  · refine Or.inr ⟨h2.2, h2.1, st / ROW_HEIGHT / BATCH_SIZE * BATCH_SIZE + BATCH_SIZE, ?_⟩
    rw [fetchBatch, if_neg]
    simp
    exact h2.2
  · exact Or.inl rfl
  · exact Or.inl rfl

theorem completeFetch_nil (s : AppState) (h : s.pending = []) : completeFetch s = s := by
  rw [completeFetch, h]

theorem completeFetch_cons (s : AppState) (a c : Nat) (rest : List (Nat × Nat))
    (h : s.pending = (a, c) :: rest) :
    completeFetch s =
      { s with
        data := putRange s.data a (genRows a c)
        loading := false
        pending := rest
        hasMore := if TOTAL_ROWS ≤ a + c then false else s.hasMore } := by
  rw [completeFetch, h]

theorem completeFetch_proj (s : AppState) (a c : Nat) (rest : List (Nat × Nat))
    (h : s.pending = (a, c) :: rest) :
    (completeFetch s).data = putRange s.data a (genRows a c) ∧
      (completeFetch s).loading = false ∧
      (completeFetch s).pending = rest ∧
      (completeFetch s).hasMore = (if TOTAL_ROWS ≤ a + c then false else s.hasMore) ∧
      (completeFetch s).fetchCount = s.fetchCount := by
  rw [completeFetch_cons s a c rest h]
  exact ⟨rfl, rfl, rfl, rfl, rfl⟩

theorem putRange_nil_zero (rows : List Row) : putRange [] 0 rows = rows.map some := by
  cases rows with
  | nil => rfl
  | cons r rs =>
    rw [putRange, if_neg (by simp)]
    exact writeRows_nil_eq _

theorem toggleSort_data_of_nil (s : AppState) (k : SortKey) (h : s.data = []) :
    (toggleSort s k).data = [] := by
  simp [toggleSort, h]

theorem storeFull_toggleSort (s : AppState) (k : SortKey) (h : storeFull s) :
    storeFull (toggleSort s k) := by
  obtain ⟨hlen, hall⟩ := h
  have hsl :
      (List.insertionSort (fun a b => tsCmp k s.sortConfig.dir a b ≤ 0)
        (s.data.filterMap id)).length = s.data.length := by
    rw [List.length_insertionSort, filterMap_id_length_of_all_some _ hall]
  constructor
  · show ((List.insertionSort _ (s.data.filterMap id)).map some ++
      List.replicate (s.data.length - _) none).length = TOTAL_ROWS
    rw [List.length_append, List.length_map, hsl, Nat.sub_self, List.length_replicate]
    simpa using hlen
  · intro x hx
    have hxd : x ∈ (List.insertionSort (fun a b => tsCmp k s.sortConfig.dir a b ≤ 0)
        (s.data.filterMap id)).map some ++
        List.replicate (s.data.length -
          (List.insertionSort (fun a b => tsCmp k s.sortConfig.dir a b ≤ 0)
            (s.data.filterMap id)).length) none := hx
    rw [hsl, Nat.sub_self, List.replicate_zero, List.append_nil] at hxd
    obtain ⟨r, -, rfl⟩ := List.mem_map.mp hxd
    rfl

theorem C5Inv_step (s : AppState) (e : Event) (h : C5Inv s) : C5Inv (step s e) := by
  obtain ⟨hlen, hiff⟩ := h
  cases e with
  | scroll st =>
    rcases handleScroll_cases s st with heq | ⟨hl, -, nbs, heq⟩
    · show C5Inv (handleScroll s st)
      rw [heq]
      exact ⟨hlen, hiff⟩
    · have hp : s.pending = [] := by
        by_contra hne
        rw [hiff.mpr hne] at hl
        exact Bool.noConfusion hl
      show C5Inv (handleScroll s st)
      rw [heq, hp]
      constructor
      · simp
      · simp
  | input v => exact ⟨hlen, hiff⟩
  | toggle k => exact ⟨hlen, hiff⟩
  | complete =>
    show C5Inv (completeFetch s)
    cases hp : s.pending with
    | nil =>
      rw [completeFetch_nil s hp]
      exact ⟨hlen, hiff⟩
    | cons pr rest =>
      obtain ⟨a, c⟩ := pr
      rw [completeFetch_cons s a c rest hp]
      have hrest : rest = [] := by
        rw [hp] at hlen
        simp only [List.length_cons] at hlen
        exact List.length_eq_zero.mp (by omega)
      rw [hrest]
      constructor
      · simp
      · simp

theorem C10Inv_step (s : AppState) (e : Event) (h : C10Inv s) : C10Inv (step s e) := by
  obtain ⟨hfc, hcase⟩ := h
  cases e with
  | scroll st =>
    rcases handleScroll_cases s st with heq | ⟨hl, hm, -, -⟩
    · show C10Inv (handleScroll s st)
      rw [heq]
      exact ⟨hfc, hcase⟩
    · rcases hcase with ⟨-, hload, -⟩ | ⟨-, -, hmore, -⟩
      · rw [hload] at hl
        exact Bool.noConfusion hl
      · rw [hmore] at hm
        exact Bool.noConfusion hm
  | input v => exact ⟨hfc, hcase⟩
  | toggle k =>
    refine ⟨hfc, ?_⟩
    rcases hcase with ⟨hpend, hload, hdata⟩ | ⟨hpend, hload, hmore, hfull⟩
    · exact Or.inl ⟨hpend, hload, toggleSort_data_of_nil s k hdata⟩
    · exact Or.inr ⟨hpend, hload, hmore, storeFull_toggleSort s k ⟨hfull.1, hfull.2⟩⟩
  | complete =>
    show C10Inv (completeFetch s)
    rcases hcase with ⟨hpend, -, hdata⟩ | ⟨hpend, hload, hmore, hfull⟩
    · obtain ⟨hd, hl, hp, hm, hfcp⟩ := completeFetch_proj s 0 TOTAL_ROWS [] hpend
      rw [hdata, putRange_nil_zero] at hd
      refine ⟨by rw [hfcp]; exact hfc, Or.inr ⟨hp, hl, ?_, ?_, ?_⟩⟩
      · rw [hm]
        exact if_pos (Nat.le_add_left _ _)
      · rw [hd, List.length_map, genRows_length]
      · intro x hx
        rw [hd] at hx
        obtain ⟨r, -, rfl⟩ := List.mem_map.mp hx
        rfl
    · rw [completeFetch_nil s hpend]
      exact ⟨hfc, Or.inr ⟨hpend, hload, hmore, hfull⟩⟩

theorem run_preserve {P : AppState → Prop} (hstep : ∀ s e, P s → P (step s e)) :
    ∀ (evs : List Event) (s : AppState), P s → P (run s evs)
  | [], _, h => h
  | e :: evs, s, h => run_preserve hstep evs (step s e) (hstep s e h)

/-- Claim C5: for every sequence of scroll events, filter/sort mutations and
fetch completions, at most one fetch is in flight at any instant; the
in-flight flag holds exactly while a fetch is pending, and while it holds
neither the scroll handler nor a direct `requestBatch` call starts another
fetch. -/
theorem C5_single_flight :
    (∀ evs : List Event,
      (run initApp evs).pending.length ≤ 1 ∧
        ((run initApp evs).loading = true ↔ (run initApp evs).pending ≠ [])) ∧
    (∀ (s : AppState) (st : Nat), s.loading = true →
      (handleScroll s st).fetchCount = s.fetchCount ∧
        (handleScroll s st).pending = s.pending) ∧
    (∀ (s : AppState) (a c : Nat), s.loading = true → fetchBatch s a c = s) := by
  refine ⟨fun evs => run_preserve C5Inv_step evs initApp (by unfold C5Inv; decide), ?_, ?_⟩
  · intro s st hl
    rcases handleScroll_cases s st with heq | ⟨hl2, -, -, -⟩
    · rw [heq]
      exact ⟨rfl, rfl⟩
    · rw [hl] at hl2
      exact Bool.noConfusion hl2
  · intro s a c hl
    rw [fetchBatch, if_pos hl]

/-- Witness for C5: the empty trace, and the in-flight fixture state on which
neither the scroll handler nor a direct call starts a fetch. -/
theorem C5_witness :
    ((run initApp []).pending.length ≤ 1 ∧
      ((run initApp []).loading = true ↔ (run initApp []).pending ≠ [])) ∧
    (exLoadingState.loading = true ∧
      ((handleScroll exLoadingState 0).fetchCount = exLoadingState.fetchCount ∧
        (handleScroll exLoadingState 0).pending = exLoadingState.pending)) ∧
    (exLoadingState.loading = true ∧ fetchBatch exLoadingState 7 7 = exLoadingState) :=
  ⟨C5_single_flight.1 [],
   ⟨rfl, C5_single_flight.2.1 exLoadingState 0 rfl⟩,
   ⟨rfl, C5_single_flight.2.2 exLoadingState 7 7 rfl⟩⟩

/-- Claim C10: in every execution exactly one fetch is ever performed: the
startup effect issues the single fetch `requestBatch(0, N)`, every later
event preserves `fetchCount = 1`, and once no fetch is pending the store is
fully loaded on `[0, N)` with `hasMore` false (so the prefetch conditions can
never fire again). -/
theorem C10_single_fetch :
    (initApp.fetchCount = 1 ∧ initApp.pending = [(0, TOTAL_ROWS)]) ∧
    (∀ evs : List Event, (run initApp evs).fetchCount = 1) ∧
    (∀ evs : List Event, (run initApp evs).pending = [] →
      (run initApp evs).hasMore = false ∧
        ∀ i, i < TOTAL_ROWS → ((run initApp evs).data.getD i none).isSome = true) := by
  have hrun : ∀ evs, C10Inv (run initApp evs) :=
    fun evs => run_preserve C10Inv_step evs initApp (by unfold C10Inv storeFull; decide)
  refine ⟨⟨rfl, rfl⟩, fun evs => (hrun evs).1, ?_⟩
  intro evs hp
  rcases (hrun evs).2 with hA | hB
  · rw [hA.1] at hp
    exact (List.cons_ne_nil _ _ hp).elim
  · refine ⟨hB.2.2.1, ?_⟩
    intro i hi
    obtain ⟨hlen, hall⟩ := hB.2.2.2
    have hi2 : i < (run initApp evs).data.length := by
      rw [hlen]
      exact hi
    rw [List.getD_eq_getElem _ none hi2]
    exact hall _ (List.getElem_mem hi2)

/-- Witness for C10: after the trace consisting of just the completion of the
initial fetch, nothing is pending, `hasMore` is false and every slot is
loaded. -/
theorem C10_witness :
    (run initApp [Event.complete]).pending = [] ∧
      ((run initApp [Event.complete]).hasMore = false ∧
        ∀ i, i < TOTAL_ROWS →
          ((run initApp [Event.complete]).data.getD i none).isSome = true) := by
  have h1 : (run initApp [Event.complete]).pending = [] := rfl
  exact ⟨h1, C10_single_fetch.2.2 [Event.complete] h1⟩
